import Mathlib

/-!
Verification of the feh-sim-seed simulator front-end (src/src/lib.rs).

The repository drives a gacha-banner simulator behind a seed (Elm-style)
message loop.  The file below shallowly embeds the data model and the
`update` message handler of `lib.rs`, together with spec-modelled versions
of the helper modules (`banner.rs`, `goal.rs`, `counter.rs`, `sim.rs`,
`query_string.rs`) whose sources are not part of the excerpt.  Wall-clock
time and the random trial results consumed by the Run handler are embedded
as explicit oracle streams.
-/

set_option maxRecDepth 4096

/-- The four unit colors, `enum Color` in lib.rs (Red, Blue, Green, Colorless). -/
inductive Color where
  | Red
  | Blue
  | Green
  | Colorless
deriving DecidableEq, Repr

/-- Ordinal of a color, `color as usize` in lib.rs. -/
def colorIdx : Color → Nat
  | Color.Red => 0
  | Color.Blue => 1
  | Color.Green => 2
  | Color.Colorless => 3

/-- The list of all colors in ordinal order. -/
def allColors : List Color := [Color.Red, Color.Blue, Color.Green, Color.Colorless]

/-- The per-color focus pool sizes, `[u8; 4]` indexed by color ordinal in the
Rust banner.  A fixed-size structure mirrors the fixed-size array type. -/
structure FocusSizes where
  red : Nat
  blue : Nat
  green : Nat
  colorless : Nat
deriving DecidableEq, Repr

/-- Read the focus size of a color, `focus_sizes[color as usize]`. -/
def FocusSizes.get (fs : FocusSizes) : Color → Nat
  | Color.Red => fs.red
  | Color.Blue => fs.blue
  | Color.Green => fs.green
  | Color.Colorless => fs.colorless

/-- Write the focus size of a color, `focus_sizes[color as usize] = q`. -/
def FocusSizes.set (fs : FocusSizes) : Color → Nat → FocusSizes
  | Color.Red, q => { fs with red := q }
  | Color.Blue, q => { fs with blue := q }
  | Color.Green, q => { fs with green := q }
  | Color.Colorless, q => { fs with colorless := q }

/-- The literal `[3, 3, 3, 3]` used for legendary banners in lib.rs. -/
def fs3333 : FocusSizes := ⟨3, 3, 3, 3⟩

/-- Modelled from the spec: `banner.rs` is not in the excerpt.  `Banner` holds
the per-color focus sizes and the `(base, pity-relevant)` starting rates, both
fields visible through their uses in lib.rs (`focus_sizes[color as usize]`,
`starting_rates = rates`). -/
structure Banner where
  focus_sizes : FocusSizes
  starting_rates : Nat × Nat
deriving DecidableEq, Repr

/-- Modelled from the spec: goal combination rule, "all parts required" vs
"any one part required" (spec section 3, GoalSpec). -/
inductive GoalKind where
  | All
  | Any
deriving DecidableEq, Repr

/-- Modelled from the spec: `GoalPreset` from the missing `goal.rs`.  The spec
describes named presets that deterministically expand into parts ("get one of
every focus color available on this banner"); the part-editing messages of
lib.rs (GoalPartAdd and friends) additionally require a custom preset whose
parts are user-maintained. -/
inductive GoalPreset where
  | Custom
  | EveryFocusColor
deriving DecidableEq, Repr

/-- A goal part: acquire at least `num_copies` focus units of `unit_color`
(struct GoalPart of goal.rs as used by lib.rs). -/
structure GoalPart where
  unit_color : Color
  num_copies : Nat
deriving DecidableEq, Repr

/-- The goal: a kind, an ordered part list (`goals`), and the active preset,
fields visible through their uses in lib.rs. -/
structure Goal where
  kind : GoalKind
  goals : List GoalPart
  preset : GoalPreset
deriving DecidableEq, Repr

/-- Modelled from the spec: `Goal::is_available` of the missing `goal.rs`.
"true iff every GoalPart color has at least one focus slot in the banner and
the part list is non-empty" (spec section 4.3). -/
def Goal.is_available (g : Goal) (b : Banner) : Bool :=
  !g.goals.isEmpty && g.goals.all (fun p => 0 < b.focus_sizes.get p.unit_color)

/-- Modelled from the spec: `GoalPreset::is_available` of the missing
`goal.rs`: a named preset is available when its expansion on the banner would
be; the custom preset is always selectable. -/
def GoalPreset.is_available (preset : GoalPreset) (b : Banner) : Bool :=
  match preset with
  | GoalPreset.Custom => true
  | GoalPreset.EveryFocusColor => allColors.any (fun c => 0 < b.focus_sizes.get c)

/-- Modelled from the spec: `Goal::set_preset` of the missing `goal.rs`.
A named preset "deterministically expands ... into concrete GoalPart entries,
filtered to colors the banner actually offers; re-running it after a banner
change must re-derive parts rather than leave stale colors" (spec section
4.3); the custom preset keeps the user-maintained parts. -/
def Goal.set_preset (g : Goal) (b : Banner) (preset : GoalPreset) : Goal :=
  match preset with
  | GoalPreset.Custom => { g with preset := GoalPreset.Custom }
  | GoalPreset.EveryFocusColor =>
      { kind := GoalKind.All,
        goals := (allColors.filter (fun c => 0 < b.focus_sizes.get c)).map
          (fun c => { unit_color := c, num_copies := 1 }),
        preset := GoalPreset.EveryFocusColor }

/-- Modelled from the spec: the `Counter` result histogram of the missing
`counter.rs`: a dense, growable mapping from roll count to occurrence count
(spec section 3, ResultHistogram). -/
structure Counter where
  buckets : List Nat
deriving DecidableEq, Repr

/-- The empty histogram. -/
def Counter.empty : Counter := ⟨[]⟩

/-- Modelled from the spec: `Counter::clear`, resets to empty. -/
def Counter.clear (_ : Counter) : Counter := Counter.empty

/-- Pad a list with zeros up to length `n`. -/
def padTo (l : List Nat) (n : Nat) : List Nat :=
  l ++ List.replicate (n - l.length) 0

/-- Modelled from the spec: recording one observation, `data[result] += 1` in
lib.rs, growing the bucket list on demand. -/
def Counter.record (c : Counter) (result : Nat) : Counter :=
  let grown := padTo c.buckets (result + 1)
  ⟨grown.set result (grown.getD result 0 + 1)⟩

/-- Total number of recorded observations: the sum of all buckets. -/
def Counter.total (c : Counter) : Nat := c.buckets.sum

/-- The pages of the app, `enum Page` in lib.rs. -/
inductive Page where
  | Main
  | Help
  | Changelog
deriving DecidableEq, Repr

/-- The seed model of lib.rs: histogram data, banner, goal, current page. -/
structure Model where
  data : Counter
  banner : Banner
  goal : Goal
  curr_page : Page
deriving DecidableEq, Repr

/-- The message type of lib.rs (`enum Msg`), omitting nothing the update
handler can observe. -/
inductive Msg where
  | Null
  | Multiple (messages : List Msg)
  | Run
  | BannerFocusSizeChange (color : Color) (quantity : Nat)
  | BannerRateChange (rates : Nat × Nat)
  | BannerSet (banner : Banner)
  | GoalPresetChange (preset : GoalPreset)
  | GoalPartColorChange (index : Nat) (color : Color)
  | GoalPartQuantityChange (index : Nat) (quantity : Nat)
  | GoalPartAdd (color : Color) (quantity : Nat)
  | GoalKindChange (kind : GoalKind)
  | GoalSet (goal : Goal)
  | PageChange (page : Page)
  | Permalink
deriving Repr

/-- Replace the element at `i` by `f` of it; identity out of range
(`goals[index].field = v` on a Rust Vec, in range by the caller). -/
def modifyAt (l : List GoalPart) (i : Nat) (f : GoalPart → GoalPart) : List GoalPart :=
  match l, i with
  | [], _ => []
  | x :: xs, 0 => f x :: xs
  | x :: xs, i + 1 => x :: modifyAt xs i f

/-- Oracles consumed by the Run handler: `trial n` is the roll count returned
by the n-th call of `sim.roll_until_goal()`, `cost b` the wall-clock
milliseconds consumed by batch `b` as observed through `perf.now()`, and
`fuel` a bound on the number of loop iterations (the real loop is bounded
because wall-clock time advances). -/
structure RunEnv where
  trial : Nat → Nat
  cost : Nat → Nat
  fuel : Nat

/-- Record one whole batch of `n` trial results, trials numbered from
`start`, into the histogram (the inner `for _ in 0..limit` loop of Run). -/
def recordBatch (trial : Nat → Nat) (start n : Nat) (data : Counter) : Counter :=
  (List.range n).foldl (fun d k => d.record (trial (start + k))) data

/-- The time-boxed batch loop of the Run handler
(`while perf.now() - start < 500.0 \x7b ... limit *= 2 \x7d`): before each
batch the elapsed time `t` is compared against the 500 ms budget; a passing
check runs one whole batch of `limit` trials and doubles `limit`.  Returns
the final histogram and the list of executed batch sizes. -/
def runLoop (env : RunEnv) : Nat → Nat → Nat → Nat → Nat → Counter → Counter × List Nat
  | 0, _, _, _, _, data => (data, [])
  | fuel + 1, b, limit, tIdx, t, data =>
    if t < 500 then
      let rest := runLoop env fuel (b + 1) (limit * 2) (tIdx + limit) (t + env.cost b)
        (recordBatch env.trial tIdx limit data)
      (rest.1, limit :: rest.2)
    else (data, [])

/-- One step of the `update` function of lib.rs: the new model and the list
of messages sent to the queue via `orders.send_msg`.  `Permalink` only pushes
a route (see `permalinkUrl`), so the model is unchanged. -/
def applyMsg (env : RunEnv) (msg : Msg) (m : Model) : Model × List Msg :=
  match msg with
  | Msg.Null => (m, [])
  | Msg.Multiple ms => (m, ms)
  | Msg.Run =>
      let g := m.goal.set_preset m.banner m.goal.preset
      if g.is_available m.banner then
        ({ m with goal := g, data := (runLoop env env.fuel 0 100 0 0 m.data).1 }, [])
      else
        ({ m with goal := g }, [])
  | Msg.BannerFocusSizeChange c q =>
      let m2 : Model := { m with banner := { m.banner with focus_sizes := m.banner.focus_sizes.set c q }, data := m.data.clear }
      (m2, [])
  | Msg.BannerRateChange rates =>
      let b := { m.banner with starting_rates := rates }
      let b2 := if rates = (8, 0) then { b with focus_sizes := fs3333 } else b
      let m2 : Model := { m with banner := b2, data := m.data.clear }
      (m2, [])
  | Msg.BannerSet b =>
      (m, [Msg.BannerFocusSizeChange Color.Red b.focus_sizes.red,
           Msg.BannerFocusSizeChange Color.Blue b.focus_sizes.blue,
           Msg.BannerFocusSizeChange Color.Green b.focus_sizes.green,
           Msg.BannerFocusSizeChange Color.Colorless b.focus_sizes.colorless,
           Msg.BannerRateChange b.starting_rates])
  | Msg.GoalPresetChange preset =>
      let g2 := if preset.is_available m.banner
                then m.goal.set_preset m.banner preset else m.goal
      let m2 : Model := { m with goal := g2, data := m.data.clear }
      (m2, [])
  | Msg.GoalPartColorChange i c =>
      let gs2 := modifyAt m.goal.goals i (fun p => { p with unit_color := c })
      let m2 : Model := { m with goal := { m.goal with goals := gs2 }, data := m.data.clear }
      (m2, [])
  | Msg.GoalPartQuantityChange i q =>
      let gs2 := if q = 0 then m.goal.goals.eraseIdx i
                 else modifyAt m.goal.goals i (fun p => { p with num_copies := q })
      let m2 : Model := { m with goal := { m.goal with goals := gs2 }, data := m.data.clear }
      (m2, [])
  | Msg.GoalPartAdd c q =>
      let gs2 := m.goal.goals ++ [{ unit_color := c, num_copies := q }]
      let m2 : Model := { m with goal := { m.goal with goals := gs2 }, data := m.data.clear }
      (m2, [])
  | Msg.GoalKindChange k =>
      ({ m with goal := { m.goal with kind := k }, data := m.data.clear }, [])
  | Msg.GoalSet g =>
      ({ m with goal := g, data := m.data.clear }, [])
  | Msg.PageChange p =>
      ({ m with curr_page := p }, [])
  | Msg.Permalink => (m, [])

/-- Drain a FIFO message queue through `applyMsg`, emitted messages appended
at the back (the seed runtime processes `send_msg` messages in order after
the current update returns).  `fuel` bounds the number of steps; every
sequence appearing in the claims drains within a small constant. -/
def processAll (env : RunEnv) : Nat → List Msg → Model → Model
  | 0, _, m => m
  | _ + 1, [], m => m
  | fuel + 1, msg :: rest, m =>
      let step := applyMsg env msg m
      processAll env fuel (rest ++ step.2) step.1

/-- Modelled from the spec: the compact binary permalink encoding of a banner
(`bincode::serialize` of the Rust Banner: four `u8` focus sizes then the two
`u8` rates, composed with base64, abstracted to the byte sequence). -/
def encodeBanner (b : Banner) : List Nat :=
  [b.focus_sizes.red, b.focus_sizes.blue, b.focus_sizes.green, b.focus_sizes.colorless,
   b.starting_rates.1, b.starting_rates.2]

/-- Modelled from the spec: `Banner::from_query_string` of the missing
`banner.rs` (base64 then bincode decode, returning nothing on any malformed
payload, per spec section 7, DecodeFailure). -/
def Banner.from_query_string : List Nat → Option Banner
  | [r, bl, g, c, r1, r2] =>
      if r < 256 ∧ bl < 256 ∧ g < 256 ∧ c < 256 ∧ r1 < 256 ∧ r2 < 256 then
        some { focus_sizes := ⟨r, bl, g, c⟩, starting_rates := (r1, r2) }
      else none
  | _ => none

/-- Byte tag of a goal kind in the modelled encoding. -/
def kindTag : GoalKind → Nat
  | GoalKind.All => 0
  | GoalKind.Any => 1

/-- Decode a goal kind tag. -/
def kindOfTag : Nat → Option GoalKind
  | 0 => some GoalKind.All
  | 1 => some GoalKind.Any
  | _ => none

/-- Byte tag of a goal preset in the modelled encoding. -/
def presetTag : GoalPreset → Nat
  | GoalPreset.Custom => 0
  | GoalPreset.EveryFocusColor => 1

/-- Decode a goal preset tag. -/
def presetOfTag : Nat → Option GoalPreset
  | 0 => some GoalPreset.Custom
  | 1 => some GoalPreset.EveryFocusColor
  | _ => none

/-- Decode a color ordinal, `TryFrom<u8> for Color` in lib.rs. -/
def colorOfTag : Nat → Option Color
  | 0 => some Color.Red
  | 1 => some Color.Blue
  | 2 => some Color.Green
  | 3 => some Color.Colorless
  | _ => none

/-- Modelled from the spec: the part list section of the goal encoding,
each part as a color ordinal followed by its copy count. -/
def encodeParts (parts : List GoalPart) : List Nat :=
  parts.foldr (fun p acc => colorIdx p.unit_color :: p.num_copies :: acc) []

/-- Modelled from the spec: strict decoding of exactly `n` encoded parts,
consuming the whole remaining payload. -/
def parseParts : Nat → List Nat → Option (List GoalPart)
  | 0, [] => some []
  | 0, _ :: _ => none
  | n + 1, c :: q :: rest =>
      match colorOfTag c with
      | none => none
      | some col =>
          if q < 256 then
            (parseParts n rest).map (fun ps => { unit_color := col, num_copies := q } :: ps)
          else none
  | _ + 1, [] => none
  | _ + 1, [_] => none

/-- Modelled from the spec: the compact binary permalink encoding of a goal
(`bincode::serialize` of the Rust Goal: kind, preset, part count, parts). -/
def encodeGoal (g : Goal) : List Nat :=
  kindTag g.kind :: presetTag g.preset :: g.goals.length :: encodeParts g.goals

/-- Modelled from the spec: `Goal::from_query_string` of the missing
`goal.rs`, returning nothing on any malformed payload. -/
def Goal.from_query_string : List Nat → Option Goal
  | k :: p :: n :: rest =>
      match kindOfTag k, presetOfTag p with
      | some kind, some preset =>
          (parseParts n rest).map (fun ps => { kind := kind, goals := ps, preset := preset })
      | _, _ => none
  | _ => none

/-- Modelled from the spec: a browser URL as the routing layer sees it - the
path segments and the decoded `banner` and `goal` query-string payloads
(`query_string::get` of the missing `query_string.rs` abstracted to the two
optional byte sequences). -/
structure Url where
  path : List String
  query_banner : Option (List Nat)
  query_goal : Option (List Nat)

/-- The URL pushed by the Permalink message handler of lib.rs:
path `fehstatsim`, query `banner=...&goal=...` holding the serialized
banner and goal. -/
def permalinkUrl (m : Model) : Url :=
  { path := ["fehstatsim"],
    query_banner := some (encodeBanner m.banner),
    query_goal := some (encodeGoal m.goal) }

/-- The page selected by the second path segment in `routes` of lib.rs. -/
def routePage (url : Url) : Page :=
  match url.path.get? 1 with
  | some s => if s = "help" then Page.Help
              else if s = "changelog" then Page.Changelog
              else Page.Main
  | none => Page.Main

/-- The message list assembled by `routes` of lib.rs: a page-change message,
then a `BannerSet` and a `GoalSet` message for each query parameter that
decodes successfully. -/
def routesMsgs (url : Url) : List Msg :=
  let bannerMsgs :=
    match url.query_banner.bind Banner.from_query_string with
    | some b => [Msg.BannerSet b]
    | none => []
  let goalMsgs :=
    match url.query_goal.bind Goal.from_query_string with
    | some g => [Msg.GoalSet g]
    | none => []
  Msg.PageChange (routePage url) :: bannerMsgs ++ goalMsgs

/-- The `routes` function of lib.rs, wrapping its messages in `Multiple`. -/
def routes (url : Url) : Msg := Msg.Multiple (routesMsgs url)

/-- Modelled from the spec: the per-trial inventory after `n` rolls, given
the roll outcome stream `ω` (`some c` is a focus hit of color `c`, `none`
any other outcome).  One focus hit increments the per-color count of focus
copies obtained so far (spec section 4.4). -/
def simInv (ω : Nat → Option Color) : Nat → Color → Nat
  | 0, _ => 0
  | n + 1, c => simInv ω n c + (if ω n = some c then 1 else 0)

/-- Modelled from the spec: `Goal::is_satisfied` of the missing `goal.rs`:
the goal-kind combination rule applied over per-part copy counts against the
per-color inventory (spec section 4.3). -/
def Goal.is_satisfied (g : Goal) (inv : Color → Nat) : Bool :=
  match g.kind with
  | GoalKind.All => g.goals.all (fun p => p.num_copies ≤ inv p.unit_color)
  | GoalKind.Any => g.goals.any (fun p => p.num_copies ≤ inv p.unit_color)

/-- Modelled from the spec: `Sim::roll_until_goal` of the missing `sim.rs`:
draw rolls one at a time, update the trial state, and after each roll test
goal satisfaction, reporting the total roll count on success (spec section
4.4).  `fuel` bounds the number of rolls examined, so the value is the least
roll count at which the goal is satisfied, when one exists within the
bound. -/
def roll_until_goal (g : Goal) (ω : Nat → Option Color) (fuel : Nat) : Option Nat :=
  ((List.range fuel).find? (fun k => g.is_satisfied (simInv ω (k + 1)))).map (fun k => k + 1)

/-- Total number of copies demanded by the goal parts. -/
def totalCopies (g : Goal) : Nat := (g.goals.map (fun p => p.num_copies)).sum

/-- Copies of color `c` required by the goal under the all-parts rule: the
largest demand among the parts of that color. -/
def needCount (g : Goal) (c : Color) : Nat :=
  g.goals.foldr (fun p acc => if p.unit_color = c then max p.num_copies acc else acc) 0

/-- The minimum number of rolls theoretically required to meet the goal:
every roll yields at most one focus copy, of a single color. -/
def minRequiredRolls (g : Goal) : Nat :=
  match g.kind with
  | GoalKind.All => allColors.foldr (fun c acc => needCount g c + acc) 0
  | GoalKind.Any => g.goals.foldr (fun p acc => min p.num_copies acc) (totalCopies g)

/-- Sum of the per-color inventory. -/
def totalInv (inv : Color → Nat) : Nat :=
  inv Color.Red + inv Color.Blue + inv Color.Green + inv Color.Colorless

/-- Setting a bucket adds the new value and removes the old one from the sum. -/
theorem sum_set_getD (l : List Nat) (i v : Nat) (h : i < l.length) :
    (l.set i v).sum + l.getD i 0 = l.sum + v := by
  induction l generalizing i with
  | nil => simp at h
  | cons x xs ih =>
      cases i with
      | zero => simp [List.set]; omega
      | succ j =>
          simp only [List.set, List.sum_cons, List.getD_cons_succ]
          have hj : j < xs.length := by simpa using h
          have := ih j hj
          omega

/-- Recording one observation grows the histogram total by exactly one. -/
theorem Counter.total_record (c : Counter) (r : Nat) : (c.record r).total = c.total + 1 := by
  have hlen : r < (padTo c.buckets (r + 1)).length := by
    simp [padTo]
    omega
  have hsum : (padTo c.buckets (r + 1)).sum = c.buckets.sum := by
    simp [padTo]
  have := sum_set_getD (padTo c.buckets (r + 1)) r
    ((padTo c.buckets (r + 1)).getD r 0 + 1) hlen
  simp only [Counter.record, Counter.total, hsum] at *
  omega

/-- Folding a list of trial results into the histogram adds its length. -/
theorem total_foldl_record (f : Nat → Nat) (l : List Nat) (c : Counter) :
    (l.foldl (fun d k => d.record (f k)) c).total = c.total + l.length := by
  induction l generalizing c with
  | nil => simp
  | cons x xs ih =>
      simp only [List.foldl_cons, List.length_cons, ih, Counter.total_record]
      omega

/-- A whole batch of `n` trials adds exactly `n` observations. -/
theorem total_recordBatch (trial : Nat → Nat) (s n : Nat) (c : Counter) :
    (recordBatch trial s n c).total = c.total + n := by
  simpa [recordBatch] using total_foldl_record (fun k => trial (s + k)) (List.range n) c

/-- C5.  For every sequence of trial results folded one at a time into the
histogram (each recording incrementing exactly one bucket by one), the sum of
all bucket occurrence counts equals the starting total plus the number of
recorded trials; from an empty histogram, exactly N after N trials. -/
theorem histogram_conservation (c : Counter) (results : List Nat) :
    (results.foldl Counter.record c).total = c.total + results.length ∧
    (results.foldl Counter.record Counter.empty).total = results.length := by
  have e : ∀ d : Counter, results.foldl Counter.record d
      = results.foldl (fun d k => d.record (id k)) d := fun _ => rfl
  constructor
  · rw [e, total_foldl_record]
  · rw [e, total_foldl_record]
    simp [Counter.empty, Counter.total]

/-- C7.  BannerRateChange always stores the new rates; it forces the focus
sizes to `[3,3,3,3]` exactly when the rates are `(8,0)` (the legendary banner
special case) and leaves them untouched for any other rates value. -/
theorem rate_change_legendary_focus (env : RunEnv) (m : Model) (rates : Nat × Nat) :
    (applyMsg env (Msg.BannerRateChange rates) m).1.banner.starting_rates = rates ∧
    (applyMsg env (Msg.BannerRateChange rates) m).1.banner.focus_sizes =
      (if rates = (8, 0) then fs3333 else m.banner.focus_sizes) := by
  simp only [applyMsg]
  constructor
  · split <;> rfl
  · split <;> rfl

/-- C4.  Every message that changes the banner or the goal configuration
(BannerFocusSizeChange, BannerRateChange, BannerSet, GoalPresetChange,
GoalPartColorChange, GoalPartQuantityChange, GoalPartAdd, GoalKindChange,
GoalSet) leaves the histogram with zero total observations once the message
(and, for BannerSet, the messages it re-emits) has been processed.  The two
index hypotheses keep the part-editing messages inside the panic-free domain
of the Rust Vec operations. -/
theorem reconfigure_clears_histogram (env : RunEnv) (m : Model) (c col : Color)
    (q q2 : Nat) (rates : Nat × Nat) (b : Banner) (preset : GoalPreset)
    (i1 i2 : Nat) (k : GoalKind) (g : Goal)
    (h1 : i1 < m.goal.goals.length) (h2 : i2 < m.goal.goals.length) :
    (processAll env 10 [Msg.BannerFocusSizeChange c q] m).data.total = 0 ∧
    (processAll env 10 [Msg.BannerRateChange rates] m).data.total = 0 ∧
    (processAll env 10 [Msg.BannerSet b] m).data.total = 0 ∧
    (processAll env 10 [Msg.GoalPresetChange preset] m).data.total = 0 ∧
    (processAll env 10 [Msg.GoalPartColorChange i1 col] m).data.total = 0 ∧
    (processAll env 10 [Msg.GoalPartQuantityChange i2 q2] m).data.total = 0 ∧
    (processAll env 10 [Msg.GoalPartAdd c q] m).data.total = 0 ∧
    (processAll env 10 [Msg.GoalKindChange k] m).data.total = 0 ∧
    (processAll env 10 [Msg.GoalSet g] m).data.total = 0 := by
  refine ⟨?_, ?_, ?_, ?_, ?_, ?_, ?_, ?_, ?_⟩ <;>
    simp [processAll, applyMsg, Counter.clear, Counter.empty, Counter.total]

/-- Shared concrete inputs for witnesses and counterexamples. -/
def envZ : RunEnv := ⟨fun _ => 7, fun _ => 600, 2⟩

/-- A plain banner: focus sizes 3/3/3/3, rates (3, 3). -/
def bannerW : Banner := ⟨fs3333, (3, 3)⟩

/-- A custom goal demanding two red focus copies. -/
def goalRed : Goal := ⟨GoalKind.All, [⟨Color.Red, 2⟩], GoalPreset.Custom⟩

/-- A model with one recorded observation. -/
def modelW : Model := ⟨⟨[0, 1]⟩, bannerW, goalRed, Page.Main⟩

/-- Witness for C4 at concrete inputs. -/
theorem reconfigure_clears_histogram_witness :
    (processAll envZ 10 [Msg.BannerFocusSizeChange Color.Red 2] modelW).data.total = 0 ∧
    (processAll envZ 10 [Msg.BannerRateChange (8, 0)] modelW).data.total = 0 ∧
    (processAll envZ 10 [Msg.BannerSet bannerW] modelW).data.total = 0 ∧
    (processAll envZ 10 [Msg.GoalPresetChange GoalPreset.EveryFocusColor] modelW).data.total = 0 ∧
    (processAll envZ 10 [Msg.GoalPartColorChange 0 Color.Blue] modelW).data.total = 0 ∧
    (processAll envZ 10 [Msg.GoalPartQuantityChange 0 5] modelW).data.total = 0 ∧
    (processAll envZ 10 [Msg.GoalPartAdd Color.Red 5] modelW).data.total = 0 ∧
    (processAll envZ 10 [Msg.GoalKindChange GoalKind.Any] modelW).data.total = 0 ∧
    (processAll envZ 10 [Msg.GoalSet goalRed] modelW).data.total = 0 :=
  reconfigure_clears_histogram envZ modelW Color.Red Color.Blue 2 5 (8, 0) bannerW
    GoalPreset.EveryFocusColor 0 0 GoalKind.Any goalRed (by decide) (by decide)

/-- C9 counterexample.  GoalPartAdd with quantity 0 retains a `num_copies = 0`
part in the goal list instead of removing it: the removal guarantee does not
extend to GoalPartAdd. -/
theorem part_add_zero_retained :
    (applyMsg envZ (Msg.GoalPartAdd Color.Red 0) modelW).1.goal.goals =
      [⟨Color.Red, 2⟩, ⟨Color.Red, 0⟩] := by
  decide

/-- C9 amended.  GoalPartQuantityChange with quantity 0 removes the part at
the (valid) index, shortening the list by one; with a positive quantity it
updates the copy count in place; GoalPartAdd, however, appends the new part
unconditionally, even with quantity 0. -/
theorem part_quantity_zero_removes (env : RunEnv) (m : Model) (i q qa : Nat) (c : Color)
    (h : i < m.goal.goals.length) :
    (applyMsg env (Msg.GoalPartQuantityChange i 0) m).1.goal.goals = m.goal.goals.eraseIdx i ∧
    (m.goal.goals.eraseIdx i).length + 1 = m.goal.goals.length ∧
    (q ≠ 0 → (applyMsg env (Msg.GoalPartQuantityChange i q) m).1.goal.goals =
      modifyAt m.goal.goals i (fun p => { p with num_copies := q })) ∧
    (applyMsg env (Msg.GoalPartAdd c qa) m).1.goal.goals =
      m.goal.goals ++ [⟨c, qa⟩] := by
  refine ⟨by simp [applyMsg], ?_, ?_, by simp [applyMsg]⟩
  · rw [List.length_eraseIdx_of_lt h]
    omega
  · intro hq
    simp [applyMsg, hq]

/-- Witness for C9 amended at concrete inputs. -/
theorem part_quantity_zero_removes_witness :
    (applyMsg envZ (Msg.GoalPartQuantityChange 0 0) modelW).1.goal.goals =
      modelW.goal.goals.eraseIdx 0 ∧
    (modelW.goal.goals.eraseIdx 0).length + 1 = modelW.goal.goals.length ∧
    (applyMsg envZ (Msg.GoalPartQuantityChange 0 5) modelW).1.goal.goals =
      modifyAt modelW.goal.goals 0 (fun p => { p with num_copies := 5 }) ∧
    (applyMsg envZ (Msg.GoalPartAdd Color.Blue 0) modelW).1.goal.goals =
      modelW.goal.goals ++ [⟨Color.Blue, 0⟩] := by
  have h := part_quantity_zero_removes envZ modelW 0 5 0 Color.Blue (by decide)
  exact ⟨h.1, h.2.1, h.2.2.1 (by decide), h.2.2.2⟩

/-- An empty custom goal, unavailable on every banner. -/
def goalEmptyCustom : Goal := ⟨GoalKind.All, [], GoalPreset.Custom⟩

/-- A stale named-preset goal: empty part list under the EveryFocusColor
preset, as left behind by removing every part after a preset change. -/
def goalStale : Goal := ⟨GoalKind.All, [], GoalPreset.EveryFocusColor⟩

/-- A model carrying the stale named-preset goal. -/
def modelStale : Model := ⟨Counter.empty, bannerW, goalStale, Page.Main⟩

/-- A model carrying the empty custom goal and one recorded observation. -/
def modelEmpty : Model := ⟨⟨[2]⟩, bannerW, goalEmptyCustom, Page.Main⟩

/-- C3 counterexample.  The stale named-preset goal has an empty part list,
so `is_available` is false; yet processing Run first re-syncs the goal from
its preset (lib.rs line 181), which re-derives an available part list, and
the handler then simulates: 100 observations are recorded rather than
zero. -/
theorem run_short_circuit_counterexample :
    Goal.is_available goalStale bannerW = false ∧
    (applyMsg envZ Msg.Run modelStale).1.data.total = 100 := by
  exact ⟨by decide, by decide⟩

/-- C3 amended.  For every goal with an empty part list or a part whose color
has no focus slot, `is_available` returns false; and the Run handler records
nothing and leaves the histogram untouched whenever the goal re-synced from
its preset (the first thing Run does) is still unavailable — in particular
always for custom-preset goals, whose parts the re-sync preserves.  A named
preset may instead re-derive an available part list and simulate. -/
theorem run_short_circuit_unavailable (env : RunEnv) (m : Model)
    (h : m.goal.goals = [] ∨ ∃ p ∈ m.goal.goals, m.banner.focus_sizes.get p.unit_color = 0) :
    m.goal.is_available m.banner = false ∧
    ((m.goal.set_preset m.banner m.goal.preset).is_available m.banner = false →
      (applyMsg env Msg.Run m).1.data = m.data ∧
      (applyMsg env Msg.Run m).1.banner = m.banner) := by
  constructor
  · rcases h with h | ⟨p, hp, hz⟩
    · simp [Goal.is_available, h]
    · have hall : m.goal.goals.all
          (fun q => 0 < m.banner.focus_sizes.get q.unit_color) = false := by
        apply Bool.eq_false_iff.mpr
        intro hc
        rw [List.all_eq_true] at hc
        have := hc p hp
        simp [hz] at this
      simp [Goal.is_available, hall]
  · intro hna
    simp [applyMsg, hna]

/-- Witness for C3 amended at concrete inputs. -/
theorem run_short_circuit_unavailable_witness :
    goalEmptyCustom.is_available bannerW = false ∧
    (applyMsg envZ Msg.Run modelEmpty).1.data = modelEmpty.data ∧
    (applyMsg envZ Msg.Run modelEmpty).1.banner = modelEmpty.banner := by
  have h := run_short_circuit_unavailable envZ modelEmpty (Or.inl rfl)
  exact ⟨h.1, (h.2 (by decide)).1, (h.2 (by decide)).2⟩

/-- Re-syncing the goal from its preset preserves availability: the custom
preset keeps the goal, and a named preset expands to parts whose colors all
have focus slots, non-empty whenever some color does. -/
theorem set_preset_preserves_available (g : Goal) (b : Banner)
    (hav : g.is_available b = true) :
    (g.set_preset b g.preset).is_available b = true := by
  cases hp : g.preset with
  | Custom =>
      simpa [Goal.set_preset, Goal.is_available] using hav
  | EveryFocusColor =>
      simp only [Goal.is_available, Bool.and_eq_true, List.all_eq_true] at hav
      obtain ⟨hne, hall⟩ := hav
      have hex : ∃ c ∈ allColors, 0 < b.focus_sizes.get c := by
        cases hgs : g.goals with
        | nil => simp [hgs] at hne
        | cons p ps =>
            refine ⟨p.unit_color, by cases p.unit_color <;> simp [allColors], ?_⟩
            simpa using hall p (by simp [hgs])
      obtain ⟨c, hc, hcpos⟩ := hex
      simp only [Goal.set_preset, Goal.is_available, Bool.and_eq_true, List.all_eq_true]
      constructor
      · have hmem : c ∈ allColors.filter (fun c => 0 < b.focus_sizes.get c) := by
          simp [List.mem_filter, hc, hcpos]
        cases hf : allColors.filter (fun c => 0 < b.focus_sizes.get c) with
        | nil => rw [hf] at hmem; simp at hmem
        | cons x xs => simp
      · intro p hp2
        simp only [List.mem_map] at hp2
        obtain ⟨c2, hc2, rfl⟩ := hp2
        simpa using (List.mem_filter.mp hc2).2

/-- The batch loop never loses observations: the resulting total is at least
the starting total. -/
theorem runLoop_total_mono (env : RunEnv) :
    ∀ (fuel b limit tIdx t : Nat) (data : Counter),
      data.total ≤ (runLoop env fuel b limit tIdx t data).1.total := by
  intro fuel
  induction fuel with
  | zero => intro b limit tIdx t data; simp [runLoop]
  | succ f ih =>
      intro b limit tIdx t data
      simp only [runLoop]
      split
      · calc data.total ≤ (recordBatch env.trial tIdx limit data).total := by
              rw [total_recordBatch]; omega
          _ ≤ _ := ih (b + 1) (limit * 2) (tIdx + limit) (t + env.cost b)
            (recordBatch env.trial tIdx limit data)
      · exact Nat.le_refl _

/-- C10.  The elapsed-time check happens only before a batch, never inside
one, and the clock starts at zero when Run begins, so with an available goal
the first batch of 100 trials always runs to completion: processing Run
records at least 100 observations, for every time-cost oracle. -/
theorem run_records_first_batch (env : RunEnv) (m : Model)
    (hav : m.goal.is_available m.banner = true) (hfuel : 1 ≤ env.fuel) :
    m.data.total + 100 ≤ (applyMsg env Msg.Run m).1.data.total := by
  have hav2 := set_preset_preserves_available m.goal m.banner hav
  obtain ⟨f, hf⟩ : ∃ f, env.fuel = f + 1 := ⟨env.fuel - 1, by omega⟩
  simp only [applyMsg, hav2, if_true, hf]
  simp only [runLoop, show (0 : Nat) < 500 by omega, if_true]
  calc m.data.total + 100 = (recordBatch env.trial 0 100 m.data).total := by
        rw [total_recordBatch]
    _ ≤ _ := runLoop_total_mono env f 1 200 100 (0 + env.cost 0)
        (recordBatch env.trial 0 100 m.data)

/-- Witness for C10 at concrete inputs. -/
theorem run_records_first_batch_witness :
    modelW.data.total + 100 ≤ (applyMsg envZ Msg.Run modelW).1.data.total :=
  run_records_first_batch envZ modelW (by decide) (by decide)

/-- C8.  A malformed (truncated, random, undecodable) banner or goal payload
produces no BannerSet or GoalSet message for that parameter, and processing
the routed messages leaves that half of the configuration unchanged.  The
decoders are total functions into Option, so decoding cannot panic. -/
theorem malformed_permalink_ignored (env : RunEnv) (m : Model) (url : Url) :
    ((url.query_banner.bind Banner.from_query_string = none) →
      (∀ b, Msg.BannerSet b ∉ routesMsgs url) ∧
      (processAll env 20 [routes url] m).banner = m.banner) ∧
    ((url.query_goal.bind Goal.from_query_string = none) →
      (∀ g, Msg.GoalSet g ∉ routesMsgs url) ∧
      (processAll env 20 [routes url] m).goal = m.goal) := by
  constructor
  · intro hb
    constructor
    · intro b
      cases hg : url.query_goal.bind Goal.from_query_string <;>
        simp [routesMsgs, hb, hg]
    · cases hg : url.query_goal.bind Goal.from_query_string <;>
        simp [routes, routesMsgs, hb, hg, processAll, applyMsg]
  · intro hg
    constructor
    · intro g
      cases hb : url.query_banner.bind Banner.from_query_string <;>
        simp [routesMsgs, hb, hg]
    · cases hb : url.query_banner.bind Banner.from_query_string <;>
        simp [routes, routesMsgs, hb, hg, processAll, applyMsg]

/-- A URL with a truncated banner payload and an undecodable goal payload. -/
def urlBad : Url := ⟨["fehstatsim"], some [1, 2], some [99]⟩

/-- Witness for C8 at concrete inputs: both payloads are malformed, no
configuration message is produced, and the model configuration survives. -/
theorem malformed_permalink_ignored_witness :
    ((∀ b, Msg.BannerSet b ∉ routesMsgs urlBad) ∧
      (processAll envZ 20 [routes urlBad] modelW).banner = modelW.banner) ∧
    ((∀ g, Msg.GoalSet g ∉ routesMsgs urlBad) ∧
      (processAll envZ 20 [routes urlBad] modelW).goal = modelW.goal) := by
  have h := malformed_permalink_ignored envZ modelW urlBad
  exact ⟨h.1 (by decide), h.2 (by decide)⟩

/-- Cumulative wall-clock cost of `k` batches starting at batch index `b`. -/
def elapsedCost (cost : Nat → Nat) : Nat → Nat → Nat
  | _, 0 => 0
  | b, k + 1 => cost b + elapsedCost cost (b + 1) k

/-- Shape of the batch loop: when every batch takes at least one millisecond
and the iteration bound covers the budget, the executed batch sizes are the
initial size doubled at each step, the pre-batch time checks pass strictly
below the budget, the loop stops at the first check at or over the budget,
and every executed batch is recorded in full. -/
theorem runLoop_spec (env : RunEnv) (hc : ∀ j, 1 ≤ env.cost j) :
    ∀ (fuel b limit tIdx t : Nat) (data : Counter), 501 ≤ t + fuel →
    ∃ k,
      (runLoop env fuel b limit tIdx t data).2 = (List.range k).map (fun i => limit * 2 ^ i) ∧
      (∀ i < k, t + elapsedCost env.cost b i < 500) ∧
      500 ≤ t + elapsedCost env.cost b k ∧
      (runLoop env fuel b limit tIdx t data).1.total
        = data.total + ((runLoop env fuel b limit tIdx t data).2).sum := by
  intro fuel
  induction fuel with
  | zero =>
      intro b limit tIdx t data hf
      refine ⟨0, by simp [runLoop], by omega, ?_, by simp [runLoop]⟩
      simp only [elapsedCost]
      omega
  | succ f ih =>
      intro b limit tIdx t data hf
      by_cases ht : t < 500
      · have hstep1 : (runLoop env (f + 1) b limit tIdx t data).2 =
            limit :: (runLoop env f (b + 1) (limit * 2) (tIdx + limit) (t + env.cost b)
              (recordBatch env.trial tIdx limit data)).2 := by
          simp [runLoop, ht]
        have hstep2 : (runLoop env (f + 1) b limit tIdx t data).1 =
            (runLoop env f (b + 1) (limit * 2) (tIdx + limit) (t + env.cost b)
              (recordBatch env.trial tIdx limit data)).1 := by
          simp [runLoop, ht]
        obtain ⟨k0, hsz, hlt, hge, htot⟩ := ih (b + 1) (limit * 2) (tIdx + limit)
          (t + env.cost b) (recordBatch env.trial tIdx limit data)
          (by have := hc b; omega)
        refine ⟨k0 + 1, ?_, ?_, ?_, ?_⟩
        · rw [hstep1, hsz, List.range_succ_eq_map, List.map_cons, List.map_map]
          have he : ∀ i ∈ List.range k0, limit * 2 * 2 ^ i =
              ((fun i => limit * 2 ^ i) ∘ Nat.succ) i := by
            intro i _
            simp [Function.comp, pow_succ]
            ring
          rw [List.map_congr_left he]
          simp
        · intro i hi
          cases i with
          | zero => simpa [elapsedCost] using ht
          | succ j =>
              have hj := hlt j (by omega)
              simp only [elapsedCost]
              omega
        · simp only [elapsedCost]
          omega
        · rw [hstep1, hstep2, htot, total_recordBatch]
          simp
          omega
      · refine ⟨0, by simp [runLoop, ht], by omega, ?_, by simp [runLoop, ht]⟩
        simp only [elapsedCost]
        omega

/-- C6.  Within one Run, trials execute in whole batches whose sizes are
100, 200, 400, ... (doubling, never a fraction of a batch); the elapsed-time check is
made before each batch; the loop stops at the first check at or past the
500 ms budget; every executed batch is recorded into the histogram in
full. -/
theorem run_batches_double (env : RunEnv) (m : Model)
    (hc : ∀ j, 1 ≤ env.cost j) (hf : 501 ≤ env.fuel) :
    ∃ k,
      (runLoop env env.fuel 0 100 0 0 m.data).2 = (List.range k).map (fun i => 100 * 2 ^ i) ∧
      (∀ i < k, elapsedCost env.cost 0 i < 500) ∧
      500 ≤ elapsedCost env.cost 0 k ∧
      (runLoop env env.fuel 0 100 0 0 m.data).1.total
        = m.data.total + ((runLoop env env.fuel 0 100 0 0 m.data).2).sum := by
  obtain ⟨k, h1, h2, h3, h4⟩ := runLoop_spec env hc env.fuel 0 100 0 0 m.data (by omega)
  refine ⟨k, h1, fun i hi => ?_, by omega, h4⟩
  have := h2 i hi
  omega

/-- A run environment whose batches cost 180 ms each. -/
def envCost : RunEnv := ⟨fun n => n, fun _ => 180, 600⟩

/-- Witness for C6 at concrete inputs. -/
theorem run_batches_double_witness :
    ∃ k,
      (runLoop envCost envCost.fuel 0 100 0 0 modelW.data).2 =
        (List.range k).map (fun i => 100 * 2 ^ i) ∧
      (∀ i < k, elapsedCost envCost.cost 0 i < 500) ∧
      500 ≤ elapsedCost envCost.cost 0 k ∧
      (runLoop envCost envCost.fuel 0 100 0 0 modelW.data).1.total
        = modelW.data.total + ((runLoop envCost envCost.fuel 0 100 0 0 modelW.data).2).sum :=
  run_batches_double envCost modelW (fun _ => by show (1 : Nat) ≤ 180; decide) (by decide)

/-- The banner fields fit in a byte, as the Rust `u8` types enforce. -/
def bannerInRange (b : Banner) : Prop :=
  b.focus_sizes.red < 256 ∧ b.focus_sizes.blue < 256 ∧ b.focus_sizes.green < 256 ∧
  b.focus_sizes.colorless < 256 ∧ b.starting_rates.1 < 256 ∧ b.starting_rates.2 < 256

/-- The goal copy counts fit in a byte, as the Rust `u8` type enforces. -/
def goalInRange (g : Goal) : Prop := ∀ p ∈ g.goals, p.num_copies < 256

/-- Decoding a color ordinal returns the color. -/
theorem colorOfTag_colorIdx (c : Color) : colorOfTag (colorIdx c) = some c := by
  cases c <;> rfl

/-- Decoding a kind tag returns the kind. -/
theorem kindOfTag_kindTag (k : GoalKind) : kindOfTag (kindTag k) = some k := by
  cases k <;> rfl

/-- Decoding a preset tag returns the preset. -/
theorem presetOfTag_presetTag (p : GoalPreset) : presetOfTag (presetTag p) = some p := by
  cases p <;> rfl

/-- Decoding the encoded banner yields the banner back. -/
theorem from_query_encode_banner (b : Banner) (h : bannerInRange b) :
    Banner.from_query_string (encodeBanner b) = some b := by
  obtain ⟨h1, h2, h3, h4, h5, h6⟩ := h
  simp only [encodeBanner, Banner.from_query_string]
  rw [if_pos ⟨h1, h2, h3, h4, h5, h6⟩]

/-- Decoding the encoded part list yields the part list back. -/
theorem parse_encode_parts (ps : List GoalPart) (h : ∀ p ∈ ps, p.num_copies < 256) :
    parseParts ps.length (encodeParts ps) = some ps := by
  induction ps with
  | nil => rfl
  | cons p ps ih =>
      have hp : p.num_copies < 256 := h p (by simp)
      have hrest : ∀ q ∈ ps, q.num_copies < 256 := fun q hq => h q (by simp [hq])
      show parseParts (ps.length + 1)
        (colorIdx p.unit_color :: p.num_copies :: encodeParts ps) = _
      simp only [parseParts, colorOfTag_colorIdx, if_pos hp, ih hrest]
      rfl

/-- Decoding the encoded goal yields the goal back. -/
theorem from_query_encode_goal (g : Goal) (h : goalInRange g) :
    Goal.from_query_string (encodeGoal g) = some g := by
  show Goal.from_query_string
    (kindTag g.kind :: presetTag g.preset :: g.goals.length :: encodeParts g.goals) = _
  simp only [Goal.from_query_string, kindOfTag_kindTag, presetOfTag_presetTag,
    parse_encode_parts g.goals h]
  rfl

/-- C1.  For every valid banner and goal (fields in u8 range, and the spec
section 3 banner invariant that rates `(8,0)` come with focus sizes
`[3,3,3,3]`), serializing via the Permalink URL and decoding via `routes`
(a BannerSet replayed as focus-size and rate-change messages, plus a direct
GoalSet) restores exactly the encoded banner and goal in any model the
messages are applied to. -/
theorem permalink_round_trip (env : RunEnv) (m1 m2 : Model)
    (hbr : bannerInRange m1.banner) (hgr : goalInRange m1.goal)
    (hleg : m1.banner.starting_rates = (8, 0) → m1.banner.focus_sizes = fs3333) :
    (processAll env 20 [routes (permalinkUrl m1)] m2).banner = m1.banner ∧
    (processAll env 20 [routes (permalinkUrl m1)] m2).goal = m1.goal := by
  have hb := from_query_encode_banner m1.banner hbr
  have hg := from_query_encode_goal m1.goal hgr
  have hmsgs : routesMsgs (permalinkUrl m1) =
      [Msg.PageChange Page.Main, Msg.BannerSet m1.banner, Msg.GoalSet m1.goal] := by
    simp [routesMsgs, permalinkUrl, routePage, hb, hg]
  rw [routes, hmsgs]
  by_cases h8 : m1.banner.starting_rates = (8, 0)
  · have hfs := hleg h8
    simp only [processAll, applyMsg, FocusSizes.set, h8, if_true, List.append_nil,
      List.nil_append, List.cons_append]
    refine ⟨?_, trivial⟩
    show Banner.mk fs3333 (8, 0) = m1.banner
    rw [← hfs, ← h8]
  · simp [processAll, applyMsg, FocusSizes.set, h8]

/-- Witness for C1 at concrete inputs. -/
theorem permalink_round_trip_witness :
    (processAll envZ 20 [routes (permalinkUrl modelW)] modelStale).banner = modelW.banner ∧
    (processAll envZ 20 [routes (permalinkUrl modelW)] modelStale).goal = modelW.goal :=
  permalink_round_trip envZ modelW modelStale
    (by refine ⟨?_, ?_, ?_, ?_, ?_, ?_⟩ <;> decide)
    (by intro p hp; fin_cases hp <;> decide)
    (fun h => absurd h (by decide))

/-- The inventory is non-decreasing in the number of rolls. -/
theorem simInv_mono (ω : Nat → Option Color) (c : Color) {n m : Nat} (h : n ≤ m) :
    simInv ω n c ≤ simInv ω m c := by
  induction h with
  | refl => exact Nat.le_refl _
  | step h ih => exact le_trans ih (Nat.le_add_right _ _)

/-- A focus hit inside a window pushes the inventory up by at least one
across the window. -/
theorem simInv_window (ω : Nat → Option Color) (c : Color) (ceiling s : Nat)
    (hhit : ∃ j, j < ceiling ∧ ω (s + j) = some c) :
    simInv ω s c + 1 ≤ simInv ω (s + ceiling) c := by
  obtain ⟨j, hj, hw⟩ := hhit
  have h1 : simInv ω (s + j + 1) c = simInv ω (s + j) c + 1 := by
    simp [simInv, hw]
  have h2 : simInv ω s c ≤ simInv ω (s + j) c := simInv_mono ω c (by omega)
  have h3 : simInv ω (s + j + 1) c ≤ simInv ω (s + ceiling) c := simInv_mono ω c (by omega)
  omega

/-- Under the hard-pity guarantee (a focus hit of the color in every window
of `ceiling` rolls), `k` windows yield at least `k` copies. -/
theorem simInv_windows (ω : Nat → Option Color) (c : Color) (ceiling : Nat)
    (hp : ∀ s, ∃ j, j < ceiling ∧ ω (s + j) = some c) :
    ∀ k, k ≤ simInv ω (k * ceiling) c := by
  intro k
  induction k with
  | zero => simp
  | succ n ih =>
      have hw := simInv_window ω c ceiling (n * ceiling) (hp (n * ceiling))
      have he : (n + 1) * ceiling = n * ceiling + ceiling := by ring
      rw [he]
      omega

/-- Each roll adds at most one focus copy over all colors together. -/
theorem totalInv_le (ω : Nat → Option Color) : ∀ n, totalInv (simInv ω n) ≤ n := by
  intro n
  induction n with
  | zero => simp [totalInv, simInv]
  | succ k ih =>
      have ih2 : simInv ω k Color.Red + simInv ω k Color.Blue + simInv ω k Color.Green +
          simInv ω k Color.Colorless ≤ k := ih
      show simInv ω (k + 1) Color.Red + simInv ω (k + 1) Color.Blue +
        simInv ω (k + 1) Color.Green + simInv ω (k + 1) Color.Colorless ≤ k + 1
      cases hw : ω k with
      | none => simp [simInv, hw]; omega
      | some c => cases c <;> (simp [simInv, hw]; omega)

/-- Unpacking availability: non-empty part list and a focus slot for every
part color. -/
theorem is_available_iff (g : Goal) (b : Banner) :
    g.is_available b = true ↔
      g.goals ≠ [] ∧ ∀ p ∈ g.goals, 0 < b.focus_sizes.get p.unit_color := by
  simp [Goal.is_available, List.all_eq_true, List.isEmpty_iff]

/-- A part demands no more copies than the whole goal does. -/
theorem copies_le_totalCopies (g : Goal) (p : GoalPart) (hp : p ∈ g.goals) :
    p.num_copies ≤ totalCopies g :=
  List.single_le_sum (fun x _ => Nat.zero_le x) _
    (List.mem_map_of_mem (fun q => q.num_copies) hp)

/-- The per-color demand is met by any inventory that satisfies every part. -/
theorem needCount_le (g : Goal) (inv : Color → Nat) (c : Color)
    (h : ∀ p ∈ g.goals, p.num_copies ≤ inv p.unit_color) :
    needCount g c ≤ inv c := by
  unfold needCount
  have haux : ∀ l : List GoalPart, (∀ p ∈ l, p.num_copies ≤ inv p.unit_color) →
      List.foldr (fun p acc => if p.unit_color = c then max p.num_copies acc else acc) 0 l
        ≤ inv c := by
    intro l
    induction l with
    | nil => intro hl; simp
    | cons p ps ih =>
        intro hl
        simp only [List.foldr_cons]
        by_cases hpc : p.unit_color = c
        · rw [if_pos hpc]
          have h1 := hl p (by simp)
          rw [hpc] at h1
          exact Nat.max_le.mpr ⟨h1, ih (fun q hq => hl q (by simp [hq]))⟩
        · rw [if_neg hpc]
          exact ih (fun q hq => hl q (by simp [hq]))
  exact haux g.goals h

/-- The folded minimum is below every member of the list. -/
theorem foldr_min_le (l : List GoalPart) (init : Nat) (p : GoalPart) (hp : p ∈ l) :
    l.foldr (fun q acc => min q.num_copies acc) init ≤ p.num_copies := by
  induction l with
  | nil => simp at hp
  | cons x xs ih =>
      simp only [List.foldr_cons]
      rcases List.mem_cons.mp hp with h | h
      · subst h
        exact Nat.min_le_left _ _
      · exact le_trans (Nat.min_le_right _ _) (ih h)

/-- Every color count is below the total inventory. -/
theorem inv_le_totalInv (inv : Color → Nat) (c : Color) : inv c ≤ totalInv inv := by
  cases c <;> simp [totalInv] <;> omega

/-- A satisfied inventory holds at least the minimum required number of
copies. -/
theorem min_required_le (g : Goal) (inv : Color → Nat)
    (hs : g.is_satisfied inv = true) :
    minRequiredRolls g ≤ totalInv inv := by
  cases hk : g.kind with
  | All =>
      simp only [Goal.is_satisfied, hk, List.all_eq_true, decide_eq_true_eq] at hs
      have hr := needCount_le g inv Color.Red hs
      have hb := needCount_le g inv Color.Blue hs
      have hg := needCount_le g inv Color.Green hs
      have hc := needCount_le g inv Color.Colorless hs
      have ht : totalInv inv = inv Color.Red + inv Color.Blue + inv Color.Green +
          inv Color.Colorless := rfl
      simp only [minRequiredRolls, hk]
      show needCount g Color.Red + (needCount g Color.Blue + (needCount g Color.Green +
        (needCount g Color.Colorless + 0))) ≤ totalInv inv
      omega
  | Any =>
      simp only [Goal.is_satisfied, hk, List.any_eq_true, decide_eq_true_eq] at hs
      obtain ⟨p, hp, hcp⟩ := hs
      simp only [minRequiredRolls, hk]
      exact le_trans (foldr_min_le g.goals (totalCopies g) p hp)
        (le_trans hcp (inv_le_totalInv inv p.unit_color))

/-- C2.  For a goal available on the banner (with the positive copy counts
the data model requires), under the hard-pity guarantee that every color
with a focus slot scores a focus hit within every window of `ceiling`
consecutive rolls, the single-trial loop terminates within
`ceiling * totalCopies` rolls, and the reported roll count lies between the
theoretical minimum and that bound. -/
theorem roll_until_goal_terminates (g : Goal) (b : Banner) (ω : Nat → Option Color)
    (ceiling : Nat)
    (hav : g.is_available b = true)
    (hpos : ∀ p ∈ g.goals, 1 ≤ p.num_copies)
    (hceil : 1 ≤ ceiling)
    (hpity : ∀ c, 0 < b.focus_sizes.get c → ∀ s, ∃ j, j < ceiling ∧ ω (s + j) = some c) :
    ∃ n, roll_until_goal g ω (ceiling * totalCopies g) = some n ∧
      minRequiredRolls g ≤ n ∧ n ≤ ceiling * totalCopies g := by
  obtain ⟨hne, hcol⟩ := (is_available_iff g b).mp hav
  obtain ⟨p0, hp0⟩ : ∃ p, p ∈ g.goals := by
    cases hgs : g.goals with
    | nil => exact absurd hgs hne
    | cons x xs => exact ⟨x, by simp [hgs]⟩
  have htc : 1 ≤ totalCopies g := le_trans (hpos p0 hp0) (copies_le_totalCopies g p0 hp0)
  have hN1 : 1 ≤ ceiling * totalCopies g := by
    calc 1 = 1 * 1 := by omega
      _ ≤ ceiling * totalCopies g := Nat.mul_le_mul hceil htc
  have hinv : ∀ p ∈ g.goals, p.num_copies ≤ simInv ω (ceiling * totalCopies g) p.unit_color := by
    intro p hp
    have hw := simInv_windows ω p.unit_color ceiling
      (hpity p.unit_color (hcol p hp)) (totalCopies g)
    have hNe : totalCopies g * ceiling = ceiling * totalCopies g := by ring
    rw [hNe] at hw
    have hcp := copies_le_totalCopies g p hp
    omega
  have hsatN : g.is_satisfied (simInv ω (ceiling * totalCopies g)) = true := by
    cases hk : g.kind with
    | All =>
        simp only [Goal.is_satisfied, hk, List.all_eq_true, decide_eq_true_eq]
        exact hinv
    | Any =>
        simp only [Goal.is_satisfied, hk, List.any_eq_true, decide_eq_true_eq]
        exact ⟨p0, hp0, hinv p0 hp0⟩
  have hexist : ∃ k ∈ List.range (ceiling * totalCopies g),
      (fun k => g.is_satisfied (simInv ω (k + 1))) k = true := by
    refine ⟨ceiling * totalCopies g - 1, List.mem_range.mpr (by omega), ?_⟩
    have he : ceiling * totalCopies g - 1 + 1 = ceiling * totalCopies g := by omega
    simp only [he]
    exact hsatN
  have h1 : ((List.range (ceiling * totalCopies g)).find?
      (fun k => g.is_satisfied (simInv ω (k + 1)))).isSome := List.find?_isSome.mpr hexist
  obtain ⟨k0, hk0⟩ := Option.isSome_iff_exists.mp h1
  have hpk : g.is_satisfied (simInv ω (k0 + 1)) = true := by
    simpa using List.find?_some hk0
  have hk0N : k0 < ceiling * totalCopies g := List.mem_range.mp (List.mem_of_find?_eq_some hk0)
  refine ⟨k0 + 1, ?_, ?_, by omega⟩
  · simp [roll_until_goal, hk0]
  · have hm := min_required_le g (simInv ω (k0 + 1)) hpk
    have ht := totalInv_le ω (k0 + 1)
    have hit : totalInv (simInv ω (k0 + 1)) ≥ minRequiredRolls g := hm
    omega

/-- A banner offering a single red focus unit and nothing else. -/
def bannerRedOnly : Banner := ⟨⟨1, 0, 0, 0⟩, (3, 3)⟩

/-- A goal demanding one red focus copy. -/
def goalOneRed : Goal := ⟨GoalKind.All, [⟨Color.Red, 1⟩], GoalPreset.Custom⟩

/-- An outcome stream that scores a red focus hit on every roll. -/
def omegaRed : Nat → Option Color := fun _ => some Color.Red

/-- Witness for C2 at concrete inputs: pity ceiling 1, every roll a red hit. -/
theorem roll_until_goal_terminates_witness :
    ∃ n, roll_until_goal goalOneRed omegaRed (1 * totalCopies goalOneRed) = some n ∧
      minRequiredRolls goalOneRed ≤ n ∧ n ≤ 1 * totalCopies goalOneRed :=
  roll_until_goal_terminates goalOneRed bannerRedOnly omegaRed 1
    (by decide)
    (by intro p hp; fin_cases hp <;> decide)
    (by decide)
    (by
      intro c hc s
      cases c with
      | Red => exact ⟨0, by omega, rfl⟩
      | Blue => simp [bannerRedOnly, FocusSizes.get] at hc
      | Green => simp [bannerRedOnly, FocusSizes.get] at hc
      | Colorless => simp [bannerRedOnly, FocusSizes.get] at hc)
